import Mathlib

/-!
Verification development for the search-and-replace engine of the WikidPad
repository (file `lib/pwiki/SearchAndReplace.py`).

The Python data model and operations are shallowly embedded:

* Python unicode/byte strings become `PyStr` (`List Nat` of code points or
  byte values).
* The tri-valued truth values `True` / `False` / `Unknown` (where `Unknown`
  is a fresh sentinel object in the source) become the inductive `Tri`.
* The search-node class hierarchy becomes the inductive `SNode`; a compiled
  regular-expression object of the Python `re` standard library is kept
  abstract as a pair (pattern string, flag word) in the node plus a regex
  engine `ReEngine` (a record of search/match functions) that the
  evaluation functions take as a parameter.  The engine `litEngine` below
  instantiates it faithfully for patterns that are metacharacter-free
  literals.
* Python exceptions (TypeError from iterating/containment on `None`,
  AttributeError from a missing method, AssertionError from `assert 0`,
  IndexError from indexing a too-short tuple) become the `Except PyErr`
  monad.

Definitions are translated from the source; the few definitions that follow
the specification text instead (the binary stream primitives of the missing
`StringOps` module, and the spec-side descriptions used in refinement
statements) say so in their doc comments.
-/

namespace SAR

/-- Tri-valued truth value of the engine: the Python booleans `True` and
`False` plus the fresh sentinel object `Unknown` of the source. -/
inductive Tri where
  | pyTrue
  | pyFalse
  | unknown
deriving DecidableEq, Repr

/-- A Python string, as the list of its character code points (for unicode
strings) or byte values (for byte strings). -/
abbrev PyStr : Type := List Nat

/-- Convert a genuine Python bool into the tri-valued type. -/
def boolToTri (b : Bool) : Tri :=
  if b then .pyTrue else .pyFalse

/-- Python exceptions that the modelled code can raise. -/
inductive PyErr where
  | typeError
  | attributeError
  | assertionError
  | indexError
deriving DecidableEq, Repr

/-- Modelled from the spec (section 8, tri-valued AND truth table): the
standard three-valued Kleene conjunction, written as the 9-case table the
claims describe.  This is the spec-side definition used to compare the
source implementation against. -/
def kleeneSpecAnd : Tri → Tri → Tri
  | .pyFalse, _ => .pyFalse
  | _, .pyFalse => .pyFalse
  | .pyTrue, .pyTrue => .pyTrue
  | _, _ => .unknown

/-- Test whether `sub` occurs in `t` starting at position 0, i.e. whether
`sub` is an initial segment of `t` (the primitive behind Python substring
search). -/
def isSubAt (sub t : PyStr) : Bool :=
  sub = t.take sub.length

/-- Scan a suffix for the first occurrence of `sub`; returns the offset
within the scanned suffix. -/
def findSubIn (sub : PyStr) : PyStr → Option Nat
  | [] => if sub = [] then some 0 else none
  | c :: rest =>
    if isSubAt sub (c :: rest) then some 0
    else (findSubIn sub rest).map (· + 1)

/-- First occurrence of `sub` in `t` at a position `≥ start`, as an absolute
position; `none` when there is none (Python `str.find` returning -1). -/
def findSubFrom (t sub : PyStr) (start : Nat) : Option Nat :=
  if start ≤ t.length then (findSubIn sub (t.drop start)).map (· + start)
  else none

/-- Python `text.find(sub, start)`: position of the first occurrence at or
after `start`, or `-1`. -/
def pyFind (t sub : PyStr) (start : Nat) : Int :=
  match findSubFrom t sub start with
  | some j => (j : Nat)
  | none => -1

/-- A Python `re` match object, kept abstract: the span reported by
`match.start(0)` / `match.end(0)` plus the `expand` method. -/
structure MatchObj where
  mstart : Nat
  mend : Nat
  expandFn : PyStr → PyStr

/-- The flag word passed to `re.compile`, as the set of individual flags it
is the bitwise OR of (the source only ever combines `re.IGNORECASE`,
`re.MULTILINE` and `re.UNICODE`). -/
structure ReFlags where
  ignoreCase : Bool
  multiline : Bool
  unicodeFlag : Bool
deriving DecidableEq, Repr

/-- An abstract regular-expression engine standing for the Python `re`
standard library: `reSearch pat flags text pos endpos` models
`re.compile(pat, flags).search(text, pos, endpos)` and `reMatchAt` models
`re.compile(pat, flags).match(text)` (anchored at position 0). -/
structure ReEngine where
  reSearch : PyStr → ReFlags → PyStr → Nat → Nat → Option MatchObj
  reMatchAt : PyStr → ReFlags → PyStr → Option MatchObj

/-- A concrete engine instance that is faithful to the Python `re` library
for patterns containing no regex metacharacters: such a pattern matches
exactly its own literal text, `search` finds its first occurrence inside
`text[pos:endpos]`, `match` tests it at position 0, and `expand` of a
template without group references returns the template. -/
def litEngine : ReEngine where
  reSearch := fun pat _ t pos endpos =>
    match findSubFrom (t.take endpos) pat pos with
    | some i => some ⟨i, i + pat.length, fun tmpl => tmpl⟩
    | none => none
  reMatchAt := fun pat _ t =>
    if isSubAt pat t then some ⟨0, pat.length, fun tmpl => tmpl⟩ else none

/-- The search-node hierarchy of the source as a closed sum type.  A
`regexText` node stores the pattern string and flag word that the source
passes to `re.compile`; the compiled behaviour is supplied separately by a
`ReEngine`.  A `subTreePages` node stores `rootWord`, `level` and the
transient `wordList` (`none` outside a `beginWikiSearch` / `endWikiSearch`
bracket). -/
inductive SNode where
  | andNode (left right : SNode)
  | allPages
  | subTreePages (rootWord : Option PyStr) (level : Option Int) (wordList : Option (List PyStr))
  | regexText (patStr : PyStr) (flags : ReFlags)
  | simpleStr (subStr : PyStr)
deriving DecidableEq, Repr

/-- The control flow of `AndSearchNode.testText`: evaluate the left operand;
if it is `False`, return `False` without looking at the right operand
(modelled by ignoring `r` entirely in that branch, so a right operand whose
evaluation raises does not disturb the result); otherwise evaluate the right
operand and combine. -/
def andRun (l r : Except PyErr Tri) : Except PyErr Tri :=
  match l with
  | .error e => .error e
  | .ok leftret =>
    if leftret = .pyFalse then .ok .pyFalse
    else
      match r with
      | .error e => .error e
      | .ok rightret =>
        if rightret = .pyFalse then .ok .pyFalse
        else if leftret = .pyTrue ∧ rightret = .pyTrue then .ok .pyTrue
        else .ok .unknown

/-- Method `testText` of the node hierarchy.  Collection nodes inherit the abstract
`testText`, which is `assert 0`; `SimpleStrNode.testText` is
`text.find(subStr) != -1`; `RegexTextNode.testText` is
`not not rePattern.search(text)`. -/
def nodeTestText (eng : ReEngine) : SNode → PyStr → Except PyErr Tri
  | .andNode l r, t => andRun (nodeTestText eng l t) (nodeTestText eng r t)
  | .allPages, _ => .error .assertionError
  | .subTreePages _ _ _, _ => .error .assertionError
  | .regexText pat fl, t => .ok (boolToTri (eng.reSearch pat fl t 0 t.length).isSome)
  | .simpleStr sub, t => .ok (boolToTri (pyFind t sub 0 != -1))

/-- Method `testPage` of the node hierarchy.  Content nodes fall back to the
abstract default, which ignores the word and defers to `testText`.
`AllPagesNode.testPage` is constantly `True`.  `SubTreePagesNode.testPage`
evaluates `word in self.wordList`, which raises a TypeError when the word
list is absent (`None`).  `AndSearchNode.testPage` reproduces the source
exactly: after the left operand, the source evaluates `self.left.testPage`
a second time where the right operand was clearly intended. -/
def nodeTestPage (eng : ReEngine) : SNode → PyStr → PyStr → Except PyErr Tri
  | .andNode l _r, w, t =>
    match nodeTestPage eng l w t with
    | .error e => .error e
    | .ok leftret =>
      if leftret = .pyFalse then .ok .pyFalse
      else
        match nodeTestPage eng l w t with
        | .error e => .error e
        | .ok rightret =>
          if rightret = .pyFalse then .ok .pyFalse
          else if leftret = .pyTrue ∧ rightret = .pyTrue then .ok .pyTrue
          else .ok .unknown
  | .allPages, _, _ => .ok .pyTrue
  | .subTreePages _ _ wl, w, _ =>
    match wl with
    | none => .error .typeError
    | some lst => .ok (boolToTri (decide (w ∈ lst)))
  | .regexText pat fl, _, t => nodeTestText eng (.regexText pat fl) t
  | .simpleStr sub, _, t => nodeTestText eng (.simpleStr sub) t

theorem andRun_ok_ok (a b : Tri) :
    andRun (.ok a) (.ok b) = .ok (kleeneSpecAnd a b) := by
  cases a <;> cases b <;> rfl

/-- C2: for every pair of child nodes and every text, the conjunction node
returns the Kleene three-valued AND of the results the children yield, for
all 9 combinations of values; and when the left child yields `False` the
right child is not evaluated, expressed by the result being `False` with no
constraint at all on the right child (in particular a right child whose
evaluation would raise does not affect the outcome). -/
theorem c2_and_testText_kleene (eng : ReEngine) (l r : SNode) (t : PyStr) :
    (∀ lv rv, nodeTestText eng l t = .ok lv → nodeTestText eng r t = .ok rv →
      nodeTestText eng (.andNode l r) t = .ok (kleeneSpecAnd lv rv)) ∧
    (nodeTestText eng l t = .ok .pyFalse →
      nodeTestText eng (.andNode l r) t = .ok .pyFalse) := by
  constructor
  · intro lv rv hl hr
    show andRun (nodeTestText eng l t) (nodeTestText eng r t) = _
    rw [hl, hr, andRun_ok_ok]
  · intro hl
    show andRun (nodeTestText eng l t) (nodeTestText eng r t) = _
    rw [hl]
    rfl

theorem c2_and_testText_kleene_witness :
    nodeTestText litEngine
        (.andNode (.simpleStr [97]) (.simpleStr [99])) [97, 98] =
      .ok (kleeneSpecAnd .pyTrue .pyFalse) ∧
    nodeTestText litEngine (.andNode (.simpleStr [99]) .allPages) [97] =
      .ok .pyFalse :=
  ⟨(c2_and_testText_kleene litEngine (.simpleStr [97]) (.simpleStr [99])
      [97, 98]).1 .pyTrue .pyFalse rfl rfl,
   (c2_and_testText_kleene litEngine (.simpleStr [99]) .allPages [97]).2 rfl⟩

/-- C1: the page-level conjunction is defective in the source: line 121
evaluates `self.left.testPage` a second time instead of the right child, so
a pair whose left child answers `True` and whose right child answers
`False` yields `True` where the Kleene AND of the two results (which the
claim and the spec prescribe) is `False`. -/
theorem c1_testPage_double_eval_bug :
    nodeTestPage litEngine (.andNode .allPages (.simpleStr [97])) [] [] =
      .ok .pyTrue ∧
    nodeTestPage litEngine (.simpleStr [97]) [] [] = .ok .pyFalse ∧
    kleeneSpecAnd .pyTrue .pyFalse = .pyFalse :=
  ⟨rfl, rfl, rfl⟩

/-- The literal string constant "no" (the wildcard-free wildcard mode and
the no-ordering mode of the source), as code points. -/
def strNo : PyStr := [110, 111]

/-- The literal string constant "regex" of the source, as code points. -/
def strRegex : PyStr := [114, 101, 103, 101, 120]

/-- The literal string constant "ascending" of the source, as code points. -/
def strAscending : PyStr := [97, 115, 99, 101, 110, 100, 105, 110, 103]

/-- The literal string constant "natural" of the source, as code points. -/
def strNatural : PyStr := [110, 97, 116, 117, 114, 97, 108]

/-- The literal boolean-query separator " and " of the source, as code
points. -/
def strAnd : PyStr := [32, 97, 110, 100, 32]

/-- Characters that Python 2 `re.escape` leaves unescaped: ASCII letters,
digits and the underscore. -/
def isAlnumChar (c : Nat) : Bool :=
  (97 ≤ c && c ≤ 122) || (65 ≤ c && c ≤ 90) || (48 ≤ c && c ≤ 57) || c == 95

/-- How Python 2 `re.escape` rewrites a single character: alphanumerics and
the underscore stay, the NUL character becomes backslash-000, every other
character gets a backslash prefix (in particular every regex metacharacter
is escaped). -/
def escapeChar (c : Nat) : PyStr :=
  if isAlnumChar c then [c]
  else if c = 0 then [92, 48, 48, 48]
  else [92, c]

/-- Python 2 `re.escape`, character by character. -/
def reEscape : PyStr → PyStr
  | [] => []
  | c :: rest => escapeChar c ++ reEscape rest

/-- The settings and cache fields of a `SearchReplaceOperation` object, with
the defaults assigned by its constructor. -/
structure SearchReplaceOperation where
  searchStr : PyStr := []
  replaceStr : PyStr := []
  replaceOp : Bool := false
  wholeWord : Bool := false
  caseSensitive : Bool := false
  cycleToStart : Bool := false
  booleanOp : Bool := false
  wildCard : PyStr := strRegex
  wikiWide : Bool := false
  title : Option PyStr := none
  ordering : PyStr := strNo
  searchOpTree : Option SNode := none
deriving DecidableEq, Repr

/-- Method `SearchReplaceOperation.reNeeded`: regular expressions are required
unless the operation is a plain case-sensitive whole-substring search. -/
def reNeeded (op : SearchReplaceOperation) : Bool :=
  decide (op.wildCard ≠ strNo) || op.wholeWord || !op.caseSensitive

/-- Method `SearchReplaceOperation._buildSearchCriterion`: build the node for a
single search criterion.  Without pattern matching a `SimpleStrNode` holds
the raw string; otherwise the string is escaped when the wildcard mode is
"no", wrapped in word-boundary anchors when whole-word is set, and handed
to `re.compile` together with multiline and unicode flags, adding the
case-insensitive flag when the search is not case sensitive. -/
def buildSearchCriterion (op : SearchReplaceOperation) (searchStr : PyStr) : SNode :=
  if !reNeeded op then .simpleStr searchStr
  else
    let s1 := if op.wildCard = strNo then reEscape searchStr else searchStr
    let s2 := if op.wholeWord then [92, 98] ++ s1 ++ [92, 98] else s1
    let fl : ReFlags :=
      if op.caseSensitive then ⟨false, true, true⟩ else ⟨true, true, true⟩
    .regexText s2 fl

/-- Modelled from the spec (sections 4.5 and 8): the documented
single-criterion compiler output.  A query with wildcard mode "no", whole
word off and case sensitivity on compiles to a SimpleString node holding
the raw string; any other combination compiles to a RegexText node whose
pattern escapes the string when the wildcard mode is "no" and is wrapped in
word-boundary anchors when whole word is on, carrying the multiline and
unicode flags plus the case-insensitive flag exactly when the search is not
case sensitive. -/
def specBuildCriterion (op : SearchReplaceOperation) (s : PyStr) : SNode :=
  if op.wildCard = strNo ∧ op.wholeWord = false ∧ op.caseSensitive = true then
    .simpleStr s
  else
    let escaped := if op.wildCard = strNo then reEscape s else s
    let anchored := if op.wholeWord then [92, 98] ++ escaped ++ [92, 98] else escaped
    .regexText anchored ⟨!op.caseSensitive, true, true⟩

/-- C4: the single-criterion compiler agrees with the documented output on
every setting combination and every search string, and `reNeeded` holds
exactly when some refinement beyond a raw case-sensitive literal search is
requested. -/
theorem c4_buildSearchCriterion_refines_spec
    (op : SearchReplaceOperation) (s : PyStr) :
    buildSearchCriterion op s = specBuildCriterion op s ∧
    (reNeeded op = true ↔
      (op.wildCard ≠ strNo ∨ op.wholeWord = true ∨ op.caseSensitive = false)) := by
  constructor
  · unfold buildSearchCriterion specBuildCriterion reNeeded
    by_cases h1 : op.wildCard = strNo <;>
      by_cases h2 : op.wholeWord <;>
        by_cases h3 : op.caseSensitive <;>
          simp [h1, h2, h3]
  · unfold reNeeded
    by_cases h1 : op.wildCard = strNo <;>
      by_cases h2 : op.wholeWord <;>
        by_cases h3 : op.caseSensitive <;>
          simp [h1, h2, h3]

/-- Fuel-driven worker for Python `split(" and ")`: find the next separator
occurrence, cut the string there, recurse on the remainder.  The fuel only
bounds the recursion; `splitAnd` always supplies enough of it. -/
def splitAndAux : Nat → PyStr → List PyStr
  | 0, t => [t]
  | fuel + 1, t =>
    match findSubFrom t strAnd 0 with
    | none => [t]
    | some i => t.take i :: splitAndAux fuel (t.drop (i + 5))

/-- Python `searchStr.split(u" and ")` of `rebuildSearchOpTree`. -/
def splitAnd (t : PyStr) : List PyStr :=
  splitAndAux t.length t

theorem findSubIn_bound {sub : PyStr} :
    ∀ {l : PyStr} {j : Nat}, findSubIn sub l = some j →
      j + sub.length ≤ l.length := by
  intro l
  induction l with
  | nil =>
    intro j h
    unfold findSubIn at h
    by_cases hs : sub = ([] : PyStr)
    · simp [hs] at h
      simp [hs, ← h]
    · simp [hs] at h
  | cons c rest ih =>
    intro j h
    unfold findSubIn at h
    by_cases hp : isSubAt sub (c :: rest)
    · simp [hp] at h
      have hlen : sub.length = min sub.length (c :: rest).length := by
        have := congrArg List.length (of_decide_eq_true (by simpa [isSubAt] using hp))
        simpa [List.length_take] using this
      omega
    · simp [hp] at h
      obtain ⟨j0, hj0, hj⟩ := h
      have := ih hj0
      simp [← hj]
      omega

theorem findSubFrom_bound {t sub : PyStr} {start i : Nat}
    (h : findSubFrom t sub start = some i) :
    start ≤ i ∧ i + sub.length ≤ t.length := by
  unfold findSubFrom at h
  by_cases hs : start ≤ t.length
  · simp [hs] at h
    obtain ⟨j, hj, hji⟩ := h
    have := findSubIn_bound hj
    simp [List.length_drop] at this
    omega
  · simp [hs] at h

theorem splitAndAux_fuel_irrelevant :
    ∀ (fuel₁ : Nat) (fuel₂ : Nat) (t : PyStr), t.length ≤ fuel₁ →
      t.length ≤ fuel₂ → splitAndAux fuel₁ t = splitAndAux fuel₂ t := by
  intro fuel₁
  induction fuel₁ with
  | zero =>
    intro fuel₂ t h1 _
    have ht : t = [] := by
      cases t with
      | nil => rfl
      | cons a l => simp at h1
    subst ht
    cases fuel₂ with
    | zero => rfl
    | succ k =>
      show [([] : PyStr)] = splitAndAux (k + 1) []
      unfold splitAndAux
      have : findSubFrom [] strAnd 0 = none := rfl
      simp [this]
  | succ f ih =>
    intro fuel₂ t h1 h2
    cases fuel₂ with
    | zero =>
      have ht : t = [] := by
        cases t with
        | nil => rfl
        | cons a l => simp at h2
      subst ht
      show splitAndAux (f + 1) [] = [([] : PyStr)]
      unfold splitAndAux
      have : findSubFrom [] strAnd 0 = none := rfl
      simp [this]
    | succ g =>
      show splitAndAux (f + 1) t = splitAndAux (g + 1) t
      unfold splitAndAux
      cases hf : findSubFrom t strAnd 0 with
      | none => rfl
      | some i =>
        have hb := findSubFrom_bound hf
        have hdrop : (t.drop (i + 5)).length = t.length - (i + 5) :=
          List.length_drop _ _
        have h5 : strAnd.length = 5 := rfl
        simp only []
        rw [ih g (t.drop (i + 5)) (by omega) (by omega)]

theorem splitAnd_of_none {t : PyStr} (h : findSubFrom t strAnd 0 = none) :
    splitAnd t = [t] := by
  unfold splitAnd
  cases hl : t.length with
  | zero => rfl
  | succ k =>
    unfold splitAndAux
    simp [h]

theorem splitAndAux_ne_nil (fuel : Nat) (t : PyStr) :
    splitAndAux fuel t ≠ [] := by
  cases fuel with
  | zero => simp [splitAndAux]
  | succ f =>
    unfold splitAndAux
    cases findSubFrom t strAnd 0 <;> simp

theorem splitAnd_of_some {t : PyStr} {i : Nat}
    (h : findSubFrom t strAnd 0 = some i) :
    splitAnd t = t.take i :: splitAnd (t.drop (i + 5)) := by
  have hb := findSubFrom_bound h
  have h5 : strAnd.length = 5 := rfl
  unfold splitAnd
  cases hl : t.length with
  | zero => omega
  | succ k =>
    have hdrop : (t.drop (i + 5)).length = t.length - (i + 5) :=
      List.length_drop _ _
    simp only [splitAndAux, h]
    rw [splitAndAux_fuel_irrelevant k (t.drop (i + 5)).length (t.drop (i + 5))
      (by omega) (by omega)]

theorem splitAnd_length_two_le {t : PyStr} {i : Nat}
    (h : findSubFrom t strAnd 0 = some i) : 2 ≤ (splitAnd t).length := by
  rw [splitAnd_of_some h]
  have := splitAndAux_ne_nil (t.drop (i + 5)).length (t.drop (i + 5))
  show 2 ≤ (splitAnd (t.drop (i + 5))).length + 1
  unfold splitAnd
  cases hc : splitAndAux (t.drop (i + 5)).length (t.drop (i + 5)) with
  | nil => exact absurd hc this
  | cons a l => simp

/-- The bottom-up loop of `rebuildSearchOpTree`: each preceding segment is
folded in as the left child of a new conjunction wrapping the node built so
far; `buildAndLoop op pats k node` runs the loop body for the indices
`k - 1, k - 2, ..., 0`, which is Python `xrange(k - 1, -1, -1)`. -/
def buildAndLoop (op : SearchReplaceOperation) (pats : List PyStr) :
    Nat → SNode → SNode
  | 0, node => node
  | k + 1, node =>
    buildAndLoop op pats k
      (.andNode (buildSearchCriterion op (pats.getD k [])) node)

/-- Method `SearchReplaceOperation.rebuildSearchOpTree`: a plain operation compiles
the whole search string as one criterion; a boolean operation splits it on
the literal separator " and ", keeps a single segment as one criterion, and
otherwise builds the conjunction tree bottom-up from the two rightmost
segments. -/
def rebuildSearchOpTree (op : SearchReplaceOperation) : SNode :=
  if !op.booleanOp then buildSearchCriterion op op.searchStr
  else
    let andPatterns := splitAnd op.searchStr
    if andPatterns.length = 1 then buildSearchCriterion op op.searchStr
    else
      buildAndLoop op andPatterns (andPatterns.length - 2)
        (.andNode
          (buildSearchCriterion op (andPatterns.getD (andPatterns.length - 2) []))
          (buildSearchCriterion op (andPatterns.getD (andPatterns.length - 1) [])))

/-- The tree a façade operation works on: the cached tree when present, else
the tree `rebuildSearchOpTree` computes (the source additionally stores the
rebuilt tree back into the cache, which changes no result and is left
implicit here). -/
def getOpTree (op : SearchReplaceOperation) : SNode :=
  match op.searchOpTree with
  | some t => t
  | none => rebuildSearchOpTree op

/-- Whether a node is a conjunction node. -/
def isAndNode : SNode → Bool
  | .andNode _ _ => true
  | _ => false

/-- The tri-valued verdict of a single compiled criterion on a text; the
`testText` of a content node never raises, so it is a plain value. -/
def critTri (eng : ReEngine) (op : SearchReplaceOperation) (p t : PyStr) : Tri :=
  match buildSearchCriterion op p with
  | .regexText pat fl => boolToTri (eng.reSearch pat fl t 0 t.length).isSome
  | .simpleStr sub => boolToTri (pyFind t sub 0 != -1)
  | _ => .unknown

theorem crit_eval (eng : ReEngine) (op : SearchReplaceOperation) (p t : PyStr) :
    nodeTestText eng (buildSearchCriterion op p) t = .ok (critTri eng op p t) := by
  unfold critTri buildSearchCriterion
  by_cases h : reNeeded op <;> simp [h, nodeTestText]

/-- Modelled from the spec (section 8, boolean split): combining the
per-segment criteria pairwise left to right, segments in their original
order — evaluate the first segment, then conjoin each following segment in
turn. -/
def leftCombine (eng : ReEngine) (op : SearchReplaceOperation)
    (segs : List PyStr) (t : PyStr) : Except PyErr Tri :=
  (segs.drop 1).foldl
    (fun acc p => andRun acc (nodeTestText eng (buildSearchCriterion op p) t))
    (nodeTestText eng (buildSearchCriterion op (segs.getD 0 [])) t)

theorem kleene_assoc (a b c : Tri) :
    kleeneSpecAnd (kleeneSpecAnd a b) c = kleeneSpecAnd a (kleeneSpecAnd b c) := by
  cases a <;> cases b <;> cases c <;> rfl

theorem kleene_foldl_cons (f : PyStr → Tri) :
    ∀ (l : List PyStr) (a b : Tri),
      l.foldl (fun acc p => kleeneSpecAnd acc (f p)) (kleeneSpecAnd a b) =
        kleeneSpecAnd a (l.foldl (fun acc p => kleeneSpecAnd acc (f p)) b) := by
  intro l
  induction l with
  | nil => intro a b; rfl
  | cons c l ih =>
    intro a b
    simp only [List.foldl_cons]
    rw [kleene_assoc, ih]

theorem take_succ_getD {l : List PyStr} {k : Nat} (h : k < l.length) :
    l.take (k + 1) = l.take k ++ [l.getD k []] := by
  rw [List.take_succ]
  congr 1
  rw [List.getElem?_eq_getElem h]
  simp [List.getD, List.getElem?_eq_getElem h]

theorem evalLoop (eng : ReEngine) (op : SearchReplaceOperation) (t : PyStr) :
    ∀ (k : Nat) (pats : List PyStr) (node : SNode) (v : Tri),
      k ≤ pats.length → nodeTestText eng node t = .ok v →
      nodeTestText eng (buildAndLoop op pats k node) t =
        .ok ((pats.take k).foldr
          (fun p acc => kleeneSpecAnd (critTri eng op p t) acc) v) := by
  intro k
  induction k with
  | zero =>
    intro pats node v _ hnode
    simpa [buildAndLoop] using hnode
  | succ k ih =>
    intro pats node v hk hnode
    show nodeTestText eng (buildAndLoop op pats k
      (.andNode (buildSearchCriterion op (pats.getD k [])) node)) t = _
    have hAnd : nodeTestText eng
        (.andNode (buildSearchCriterion op (pats.getD k [])) node) t =
        .ok (kleeneSpecAnd (critTri eng op (pats.getD k []) t) v) := by
      show andRun (nodeTestText eng (buildSearchCriterion op (pats.getD k [])) t)
        (nodeTestText eng node t) = _
      rw [crit_eval, hnode, andRun_ok_ok]
    rw [ih pats _ _ (by omega) hAnd]
    rw [take_succ_getD (by omega), List.foldr_append]
    rfl

theorem chain_bridge (f : PyStr → Tri) :
    ∀ (l : List PyStr), 2 ≤ l.length →
      (l.take (l.length - 2)).foldr (fun p acc => kleeneSpecAnd (f p) acc)
          (kleeneSpecAnd (f (l.getD (l.length - 2) []))
            (f (l.getD (l.length - 1) []))) =
        (l.drop 1).foldl (fun acc p => kleeneSpecAnd acc (f p)) (f (l.getD 0 [])) := by
  intro l
  induction l with
  | nil => intro h; simp at h
  | cons a ws ih =>
    intro h
    by_cases hw : ws.length ≤ 1
    · have hw1 : ws.length = 1 := by simp at h; omega
      obtain ⟨b, hb⟩ : ∃ b, ws = [b] := by
        cases ws with
        | nil => simp at hw1
        | cons b l =>
          cases l with
          | nil => exact ⟨b, rfl⟩
          | cons c l2 => simp at hw1
      subst hb
      rfl
    · have hw2 : 2 ≤ ws.length := by omega
      have hlen : (a :: ws).length - 2 = (ws.length - 2) + 1 := by
        simp; omega
      have htake : (a :: ws).take ((a :: ws).length - 2) =
          a :: ws.take (ws.length - 2) := by
        rw [hlen]; rfl
      have hg1 : (a :: ws).getD ((a :: ws).length - 2) [] =
          ws.getD (ws.length - 2) [] := by
        have : (a :: ws).length - 2 = (ws.length - 2) + 1 := hlen
        rw [this, List.getD_cons_succ]
      have hg2 : (a :: ws).getD ((a :: ws).length - 1) [] =
          ws.getD (ws.length - 1) [] := by
        have : (a :: ws).length - 1 = (ws.length - 1) + 1 := by simp; omega
        rw [this, List.getD_cons_succ]
      rw [htake, hg1, hg2, List.foldr_cons, ih hw2]
      obtain ⟨w, ws1, hws⟩ : ∃ w ws1, ws = w :: ws1 := by
        cases ws with
        | nil => simp at hw2
        | cons w ws1 => exact ⟨w, ws1, rfl⟩
      subst hws
      show kleeneSpecAnd (f a)
          (ws1.foldl (fun acc p => kleeneSpecAnd acc (f p)) (f w)) =
        (w :: ws1).foldl (fun acc p => kleeneSpecAnd acc (f p)) (f a)
      rw [List.foldl_cons, kleene_foldl_cons]

theorem foldl_andRun_ok (eng : ReEngine) (op : SearchReplaceOperation) (t : PyStr) :
    ∀ (l : List PyStr) (a : Tri),
      l.foldl (fun acc p => andRun acc (nodeTestText eng (buildSearchCriterion op p) t))
          (.ok a) =
        .ok (l.foldl (fun acc p => kleeneSpecAnd acc (critTri eng op p t)) a) := by
  intro l
  induction l with
  | nil => intro a; rfl
  | cons c l ih =>
    intro a
    simp only [List.foldl_cons]
    rw [crit_eval, andRun_ok_ok, ih]

theorem leftCombine_val (eng : ReEngine) (op : SearchReplaceOperation)
    (segs : List PyStr) (t : PyStr) :
    leftCombine eng op segs t =
      .ok ((segs.drop 1).foldl (fun acc p => kleeneSpecAnd acc (critTri eng op p t))
        (critTri eng op (segs.getD 0 []) t)) := by
  unfold leftCombine
  rw [crit_eval, foldl_andRun_ok]

/-- C3 (amended): for a boolean operation, a search string without the
separator " and " compiles to the single criterion node for the whole
string, which is never a conjunction; a search string containing the
separator compiles to a conjunction tree whose text-level evaluation equals
combining the per-segment criteria pairwise left to right in their original
order.  (The page-level evaluation of the tree is not equivalent, because
of the defect recorded at C1 — see the counterexample.) -/
theorem c3_boolean_split_testText (eng : ReEngine) (op : SearchReplaceOperation)
    (hb : op.booleanOp = true) :
    (findSubFrom op.searchStr strAnd 0 = none →
      rebuildSearchOpTree op = buildSearchCriterion op op.searchStr ∧
      isAndNode (rebuildSearchOpTree op) = false) ∧
    (∀ i, findSubFrom op.searchStr strAnd 0 = some i → ∀ t,
      nodeTestText eng (rebuildSearchOpTree op) t =
        leftCombine eng op (splitAnd op.searchStr) t) := by
  constructor
  · intro hn
    have hsplit := splitAnd_of_none hn
    have htree : rebuildSearchOpTree op = buildSearchCriterion op op.searchStr := by
      unfold rebuildSearchOpTree
      simp [hb, hsplit]
    refine ⟨htree, ?_⟩
    rw [htree]
    unfold buildSearchCriterion
    by_cases h : reNeeded op <;> simp [h, isAndNode]
  · intro i hi t
    have h2 := splitAnd_length_two_le hi
    set segs := splitAnd op.searchStr with hsegs
    have htree : rebuildSearchOpTree op =
        buildAndLoop op segs (segs.length - 2)
          (.andNode (buildSearchCriterion op (segs.getD (segs.length - 2) []))
            (buildSearchCriterion op (segs.getD (segs.length - 1) []))) := by
      unfold rebuildSearchOpTree
      simp only [hb, Bool.not_true, Bool.false_eq_true, if_false, ← hsegs]
      rw [if_neg (by omega)]
    have hbase : nodeTestText eng
        (.andNode (buildSearchCriterion op (segs.getD (segs.length - 2) []))
          (buildSearchCriterion op (segs.getD (segs.length - 1) []))) t =
        .ok (kleeneSpecAnd (critTri eng op (segs.getD (segs.length - 2) []) t)
          (critTri eng op (segs.getD (segs.length - 1) []) t)) := by
      show andRun (nodeTestText eng (buildSearchCriterion op (segs.getD (segs.length - 2) [])) t)
        (nodeTestText eng (buildSearchCriterion op (segs.getD (segs.length - 1) [])) t) = _
      rw [crit_eval, crit_eval, andRun_ok_ok]
    rw [htree, evalLoop eng op t (segs.length - 2) segs _ _ (by omega) hbase,
      leftCombine_val]
    congr 1
    exact chain_bridge (fun p => critTri eng op p t) segs h2

/-- The concrete boolean operation "a and b" with plain case-sensitive
literal criteria, used as counterexample input for C3. -/
def c3op : SearchReplaceOperation :=
  { booleanOp := true, wildCard := strNo, caseSensitive := true,
    searchStr := [97, 32, 97, 110, 100, 32, 98] }

/-- C3 counterexample: the boolean query "a and b" splits into the segments
"a" and "b"; on a page whose text is just "a" the two per-segment criteria
answer True and False at page level, so the left-to-right pairwise
combination is False, yet `testPage` on the compiled conjunction tree
answers True (the defective page-level conjunction never consults the
second segment).  The claimed testText/testPage equivalence therefore fails
for testPage. -/
theorem c3_counterexample :
    splitAnd c3op.searchStr = [[97], [98]] ∧
    nodeTestPage litEngine (buildSearchCriterion c3op [97]) [] [97] = .ok .pyTrue ∧
    nodeTestPage litEngine (buildSearchCriterion c3op [98]) [] [97] = .ok .pyFalse ∧
    kleeneSpecAnd .pyTrue .pyFalse = .pyFalse ∧
    nodeTestPage litEngine (rebuildSearchOpTree c3op) [] [97] = .ok .pyTrue :=
  ⟨rfl, rfl, rfl, rfl, rfl⟩

theorem c3_boolean_split_testText_witness :
    c3op.booleanOp = true ∧
    nodeTestText litEngine (rebuildSearchOpTree c3op) [97] =
      leftCombine litEngine c3op (splitAnd c3op.searchStr) [97] :=
  ⟨rfl, (c3_boolean_split_testText litEngine c3op rfl).2 1 rfl [97]⟩

/-- Result of a `searchText` call: the `(None, None)` not-found sentinel, a
plain `(start, end)` span from a `SimpleStrNode`, or a
`(start, end, match)` triple from a `RegexTextNode`. -/
inductive SearchRes where
  | notFoundRes
  | foundPos (first afterLast : Nat)
  | foundMatch (first afterLast : Nat) (m : MatchObj)

/-- Method `SimpleStrNode.searchText`: find the substring at or after the start
position; on failure from a non-zero start, retry from the beginning when
`cycleToStart` is set. -/
def simpleSearchText (sub t : PyStr) (searchCharStartPos : Nat)
    (cycleToStart : Bool) : SearchRes :=
  match findSubFrom t sub searchCharStartPos with
  | some pos => .foundPos pos (pos + sub.length)
  | none =>
    if searchCharStartPos = 0 then .notFoundRes
    else if cycleToStart then
      match findSubFrom t sub 0 with
      | some pos => .foundPos pos (pos + sub.length)
      | none => .notFoundRes
    else .notFoundRes

/-- Method `RegexTextNode.searchText`: search the pattern at or after the start
position; on failure from a non-zero start, retry from the beginning when
`cycleToStart` is set; a success returns the span together with the match
object. -/
def regexSearchText (eng : ReEngine) (pat : PyStr) (fl : ReFlags) (t : PyStr)
    (searchCharStartPos : Nat) (cycleToStart : Bool) : SearchRes :=
  match eng.reSearch pat fl t searchCharStartPos t.length with
  | some m => .foundMatch m.mstart m.mend m
  | none =>
    if searchCharStartPos = 0 then .notFoundRes
    else if cycleToStart then
      match eng.reSearch pat fl t 0 t.length with
      | some m => .foundMatch m.mstart m.mend m
      | none => .notFoundRes
    else .notFoundRes

/-- Method `searchText` dispatched over the node hierarchy: only the two content
nodes define it; calling it on a conjunction or collection node is an
AttributeError in the source. -/
def nodeSearchText (eng : ReEngine) : SNode → PyStr → Nat → Bool →
    Except PyErr SearchRes
  | .simpleStr sub, t, pos, cyc => .ok (simpleSearchText sub t pos cyc)
  | .regexText pat fl, t, pos, cyc => .ok (regexSearchText eng pat fl t pos cyc)
  | _, _, _, _ => .error .attributeError

/-- Method `matchesPart` dispatched over the node hierarchy.
`SimpleStrNode.matchesPart` answers `(0, len(toReplace))` exactly when the
stored substring equals the candidate; `RegexTextNode.matchesPart` runs the
anchored `match` and on success answers `(0, len(toReplace), match)`
regardless of where the match ends. -/
def nodeMatchesPart (eng : ReEngine) :
    SNode → PyStr → Except PyErr (Option (Nat × Nat × Option MatchObj))
  | .simpleStr sub, toReplace =>
    .ok (if sub = toReplace then some (0, toReplace.length, none) else none)
  | .regexText pat fl, toReplace =>
    .ok ((eng.reMatchAt pat fl toReplace).map
      (fun m => (0, toReplace.length, some m)))
  | _, _ => .error .attributeError

/-- Method `replace` dispatched over the node hierarchy.  `SimpleStrNode.replace`
returns the replacement pattern unchanged; `RegexTextNode.replace` expands
the replacement pattern against the match object stored in slot 2 of the
found data (an IndexError if the found data has no such slot). -/
def nodeReplace (eng : ReEngine) :
    SNode → PyStr → SearchRes → PyStr → Except PyErr PyStr
  | .simpleStr _, _, _, pattern => .ok pattern
  | .regexText _ _, _, foundData, pattern =>
    match foundData with
    | .foundMatch _ _ m => .ok (m.expandFn pattern)
    | _ => .error .indexError
  | _, _, _, _ => .error .attributeError

/-- Method `SearchReplaceOperation.searchText`: not applicable to a boolean
operation (explicit `(None, None)` sentinel, nothing raised); otherwise the
compiled tree performs the search with the wrap-around flag of the operation. -/
def opSearchText (eng : ReEngine) (op : SearchReplaceOperation) (text : PyStr)
    (searchCharStartPos : Nat) : Except PyErr SearchRes :=
  if op.booleanOp then .ok .notFoundRes
  else nodeSearchText eng (getOpTree op) text searchCharStartPos op.cycleToStart

/-- Method `SearchReplaceOperation.matchesPart`: not applicable to a boolean
operation (explicit `None`, nothing raised); otherwise the compiled tree
tests the candidate. -/
def opMatchesPart (eng : ReEngine) (op : SearchReplaceOperation)
    (toReplace : PyStr) : Except PyErr (Option (Nat × Nat × Option MatchObj)) :=
  if op.booleanOp then .ok none
  else nodeMatchesPart eng (getOpTree op) toReplace

/-- Method `SearchReplaceOperation.replace`: not applicable to a boolean operation
or to a non-replace operation (explicit `None`, nothing raised); otherwise
the compiled tree builds the replacement from the found data and the
replace string. -/
def opReplace (eng : ReEngine) (op : SearchReplaceOperation) (text : PyStr)
    (foundData : SearchRes) : Except PyErr (Option PyStr) :=
  if op.booleanOp || !op.replaceOp then .ok none
  else
    match nodeReplace eng (getOpTree op) text foundData op.replaceStr with
    | .ok s => .ok (some s)
    | .error e => .error e

/-- C6: on a boolean operation every sequential/replace entry point returns
its explicit not-applicable sentinel without evaluating the tree and hence
without raising; and `replace` also returns the sentinel whenever the
operation is not a replace operation, independent of the boolean flag. -/
theorem c6_boolean_guards (eng : ReEngine) (op : SearchReplaceOperation)
    (text toReplace : PyStr) (pos : Nat) (fd : SearchRes) :
    (op.booleanOp = true →
      opSearchText eng op text pos = .ok .notFoundRes ∧
      opMatchesPart eng op toReplace = .ok none ∧
      opReplace eng op text fd = .ok none) ∧
    (op.replaceOp = false → opReplace eng op text fd = .ok none) := by
  constructor
  · intro h
    refine ⟨?_, ?_, ?_⟩ <;> simp [opSearchText, opMatchesPart, opReplace, h]
  · intro h
    simp [opReplace, h]

/-- A concrete boolean non-replace operation used in witnesses. -/
def c6op : SearchReplaceOperation :=
  { booleanOp := true, replaceOp := false, searchStr := [97] }

theorem c6_boolean_guards_witness :
    c6op.booleanOp = true ∧
    opSearchText litEngine c6op [97] 0 = .ok .notFoundRes ∧
    opMatchesPart litEngine c6op [97] = .ok none ∧
    opReplace litEngine c6op [97] .notFoundRes = .ok none :=
  ⟨rfl,
   ((c6_boolean_guards litEngine c6op [97] [97] 0 .notFoundRes).1 rfl).1,
   ((c6_boolean_guards litEngine c6op [97] [97] 0 .notFoundRes).1 rfl).2.1,
   ((c6_boolean_guards litEngine c6op [97] [97] 0 .notFoundRes).1 rfl).2.2⟩

/-- C7: `SubTreePagesNode.testPage` outside a `beginWikiSearch` /
`endWikiSearch` bracket evaluates `word in None`, which raises a TypeError
instead of producing the safe default the claim requires. -/
theorem c7_testPage_outside_bracket_raises :
    nodeTestPage litEngine (.subTreePages (some [104]) (some (-1)) none)
      [104] [] = .error .typeError :=
  rfl

/-- C8 (amended): `SimpleStrNode.matchesPart` answers a found tuple exactly
when the candidate equals the stored substring, and the tuple is
`(0, len(candidate))`; `RegexTextNode.matchesPart` answers a found tuple
exactly when the anchored match at position 0 succeeds — the match need not
span the whole candidate — and the tuple is `(0, len(candidate), match)`
regardless of where the match ends. -/
theorem c8_matchesPart_amended (eng : ReEngine) (sub pat : PyStr)
    (fl : ReFlags) (s : PyStr) :
    ((∃ r, nodeMatchesPart eng (.simpleStr sub) s = .ok (some r)) ↔ sub = s) ∧
    (sub = s → nodeMatchesPart eng (.simpleStr sub) s =
      .ok (some (0, s.length, none))) ∧
    ((∃ r, nodeMatchesPart eng (.regexText pat fl) s = .ok (some r)) ↔
      (eng.reMatchAt pat fl s).isSome) ∧
    (∀ m, eng.reMatchAt pat fl s = some m →
      nodeMatchesPart eng (.regexText pat fl) s =
        .ok (some (0, s.length, some m))) := by
  refine ⟨?_, ?_, ?_, ?_⟩
  · constructor
    · rintro ⟨r, hr⟩
      by_cases h : sub = s
      · exact h
      · simp [nodeMatchesPart, h] at hr
    · intro h
      exact ⟨(0, s.length, none), by simp [nodeMatchesPart, h]⟩
  · intro h
    simp [nodeMatchesPart, h]
  · constructor
    · rintro ⟨r, hr⟩
      cases hm : eng.reMatchAt pat fl s with
      | none => simp [nodeMatchesPart, hm] at hr
      | some m => rfl
    · intro h
      cases hm : eng.reMatchAt pat fl s with
      | none => simp [hm] at h
      | some m => exact ⟨(0, s.length, some m), by simp [nodeMatchesPart, hm]⟩
  · intro m hm
    simp [nodeMatchesPart, hm]

/-- C8 counterexample: with the literal pattern "a" (exactly what the
compiler produces for an escaped wildcard-free search), `matchesPart` on
the candidate "ab" returns the found tuple `(0, 2, match)` although the
anchored match only spans `[0, 1)` — the claim requires the pattern to span
the full candidate for a tuple to be returned, which the code does not
check. -/
theorem c8_counterexample :
    nodeMatchesPart litEngine (.regexText [97] ⟨false, true, true⟩) [97, 98] =
      .ok (some (0, 2, some ⟨0, 1, fun tmpl => tmpl⟩)) ∧
    litEngine.reMatchAt [97] ⟨false, true, true⟩ [97, 98] =
      some ⟨0, 1, fun tmpl => tmpl⟩ ∧
    MatchObj.mend ⟨0, 1, fun tmpl => tmpl⟩ ≠ List.length [97, 98] :=
  ⟨rfl, rfl, by decide⟩

theorem c8_matchesPart_amended_witness :
    nodeMatchesPart litEngine (.simpleStr [97]) [97] =
      .ok (some (0, 1, none)) ∧
    nodeMatchesPart litEngine (.regexText [97] ⟨false, true, true⟩) [97, 98] =
      .ok (some (0, 2, some ⟨0, 1, fun tmpl => tmpl⟩)) :=
  ⟨(c8_matchesPart_amended litEngine [97] [97] ⟨false, true, true⟩ [97]).2.1 rfl,
   (c8_matchesPart_amended litEngine [97] [97] ⟨false, true, true⟩ [97, 98]).2.2.2
     ⟨0, 1, fun tmpl => tmpl⟩ rfl⟩

/-- Python string comparison, less-or-equal: lexicographic by code point,
a proper initial segment ordering first. -/
def pyLe : PyStr → PyStr → Bool
  | [], _ => true
  | _ :: _, [] => false
  | a :: xs, b :: ys =>
    if a < b then true else if b < a then false else pyLe xs ys

instance : DecidableRel (fun a b : PyStr => pyLe a b = true) :=
  fun a b => inferInstanceAs (Decidable (pyLe a b = true))

/-- Python `list.sort()` on a list of strings: a stable comparison sort by
the lexicographic order. -/
def pySort (l : List PyStr) : List PyStr :=
  List.insertionSort (fun a b => pyLe a b = true) l

/-- Python `del wordSet[w]` on the word-set dictionary, modelled on the
insertion-ordered key list: remove the (single) occurrence of the key. -/
def listDel : List PyStr → PyStr → List PyStr
  | [], _ => []
  | x :: xs, w => if x = w then xs else x :: listDel xs w

/-- Building the word-set dictionary from the word list (`wordSet[w] = None`
in a loop): the keys in first-insertion order, one occurrence each.  The
actual dictionary does not order its keys; the insertion order is a
harmless representative because every consumer either treats the set as a
set or sorts what remains of it. -/
def dictFromList (words : List PyStr) : List PyStr :=
  words.foldl (fun ws w => if w ∈ ws then ws else ws ++ [w]) []

/-- The loop of `SubTreePagesNode.orderNatural`: walk the fetched word list
in fetch order; every word still in the working set is appended to the
result and deleted from the set. -/
def subTreeCollect : List PyStr → List PyStr → List PyStr × List PyStr
  | [], ws => ([], ws)
  | w :: rest, ws =>
    if w ∈ ws then
      let p := subTreeCollect rest (listDel ws w)
      (w :: p.1, p.2)
    else subTreeCollect rest ws

/-- Method `orderNatural` over the node hierarchy, threading the working set.  The
abstract default returns the empty list and leaves the set untouched; the
conjunction gives the left child priority and consults the right child only
while the set is non-empty; the subtree node outside a session bracket
iterates over `None`, a TypeError. -/
def nodeOrderNatural : SNode → List PyStr → Except PyErr (List PyStr × List PyStr)
  | .andNode l r, ws =>
    match nodeOrderNatural l ws with
    | .error e => .error e
    | .ok (leftret, ws1) =>
      if ws1.length = 0 then .ok (leftret, ws1)
      else
        match nodeOrderNatural r ws1 with
        | .error e => .error e
        | .ok (rightret, ws2) => .ok (leftret ++ rightret, ws2)
  | .subTreePages _ _ none, _ => .error .typeError
  | .subTreePages _ _ (some wl), ws => .ok (subTreeCollect wl ws)
  | _, ws => .ok ([], ws)

/-- Method `SearchReplaceOperation.orderNatural`: build the word-set dictionary,
let the tree claim and order what it can, then append the sorted
remainder. -/
def opOrderNatural (op : SearchReplaceOperation) (words : List PyStr) :
    Except PyErr (List PyStr) :=
  match nodeOrderNatural (getOpTree op) (dictFromList words) with
  | .error e => .error e
  | .ok (naturalList, remainSet) => .ok (naturalList ++ pySort remainSet)

/-- Method `SearchReplaceOperation.applyOrdering`: "no" returns the list as is,
"ascending" sorts it, "natural" delegates to `orderNatural`, anything else
falls through unchanged. -/
def applyOrdering (op : SearchReplaceOperation) (words : List PyStr) :
    Except PyErr (List PyStr) :=
  if op.ordering = strNo then .ok words
  else if op.ordering = strAscending then .ok (pySort words)
  else if op.ordering = strNatural then opOrderNatural op words
  else .ok words

/-- Whether every subtree-pages node below this node carries its transient
word list, i.e. the node is inside a `beginWikiSearch` / `endWikiSearch`
bracket. -/
def inBracket : SNode → Bool
  | .andNode l r => inBracket l && inBracket r
  | .subTreePages _ _ wl => wl.isSome
  | _ => true

theorem listDel_eq_filter {ws : List PyStr} (h : ws.Nodup) (w : PyStr) :
    listDel ws w = ws.filter (fun x => decide (x ≠ w)) := by
  induction ws with
  | nil => rfl
  | cons x xs ih =>
    rw [List.nodup_cons] at h
    unfold listDel
    by_cases hx : x = w
    · subst hx
      rw [if_pos rfl, List.filter_cons]
      simp only [ne_eq, decide_not, not_true_eq_false, decide_False, Bool.not_false,
        Bool.not_true, Bool.false_eq_true, if_false]
      symm
      apply List.filter_eq_self.mpr
      intro a ha
      have hne : a ≠ x := fun he => h.1 (he ▸ ha)
      simp [hne]
    · rw [if_neg hx, List.filter_cons]
      have htrue : (decide (x ≠ w)) = true := by simp [hx]
      simp only [ne_eq, decide_not, htrue, if_true]
      rw [ih h.2]
      simp [decide_not]

theorem listDel_nodup {ws : List PyStr} (h : ws.Nodup) (w : PyStr) :
    (listDel ws w).Nodup := by
  rw [listDel_eq_filter h w]
  exact h.filter _

theorem listDel_perm {ws : List PyStr} {w : PyStr} (h : w ∈ ws) :
    (w :: listDel ws w).Perm ws := by
  induction ws with
  | nil => simp at h
  | cons x xs ih =>
    unfold listDel
    by_cases hx : x = w
    · subst hx
      rw [if_pos rfl]
    · rw [if_neg hx]
      have hw : w ∈ xs := by
        rcases List.mem_cons.mp h with h1 | h1
        · exact absurd h1.symm hx
        · exact h1
      exact (List.Perm.swap x w (listDel xs w)).trans ((ih hw).cons x)

theorem foldl_dictInsert_append :
    ∀ (words acc : List PyStr), (acc ++ words).Nodup →
      words.foldl (fun ws w => if w ∈ ws then ws else ws ++ [w]) acc =
        acc ++ words := by
  intro words
  induction words with
  | nil => intro acc _; simp
  | cons w rest ih =>
    intro acc h
    have hnd := List.nodup_append.mp h
    have hw : w ∉ acc := fun hmem =>
      (hnd.2.2 hmem) (List.mem_cons_self w rest)
    rw [List.foldl_cons, if_neg hw]
    have hre : (acc ++ [w]) ++ rest = acc ++ w :: rest := by simp
    rw [ih (acc ++ [w]) (by rw [hre]; exact h), hre]

theorem dictFromList_eq {words : List PyStr} (h : words.Nodup) :
    dictFromList words = words := by
  have := foldl_dictInsert_append words [] (by simpa using h)
  simpa [dictFromList] using this

theorem subTreeCollect_cons_mem {w : PyStr} {rest ws : List PyStr} (hw : w ∈ ws) :
    subTreeCollect (w :: rest) ws =
      (w :: (subTreeCollect rest (listDel ws w)).1,
        (subTreeCollect rest (listDel ws w)).2) := by
  simp only [subTreeCollect]
  rw [if_pos hw]

theorem subTreeCollect_cons_not_mem {w : PyStr} {rest ws : List PyStr} (hw : w ∉ ws) :
    subTreeCollect (w :: rest) ws = subTreeCollect rest ws := by
  simp only [subTreeCollect]
  rw [if_neg hw]

theorem subTreeCollect_fst {fetch : List PyStr} :
    ∀ {ws : List PyStr}, ws.Nodup → fetch.Nodup →
      (subTreeCollect fetch ws).1 =
        fetch.filter (fun w => decide (w ∈ ws)) := by
  induction fetch with
  | nil => intro ws _ _; rfl
  | cons w rest ih =>
    intro ws hws hf
    rw [List.nodup_cons] at hf
    by_cases hw : w ∈ ws
    · rw [subTreeCollect_cons_mem hw, List.filter_cons]
      have htrue : (decide (w ∈ ws)) = true := by simp [hw]
      simp only [htrue, if_true]
      have heq : rest.filter (fun x => decide (x ∈ listDel ws w)) =
          rest.filter (fun x => decide (x ∈ ws)) := by
        apply List.filter_congr
        intro x hx
        have hxw : x ≠ w := fun he => hf.1 (he ▸ hx)
        have hiff : x ∈ listDel ws w ↔ x ∈ ws := by
          rw [listDel_eq_filter hws w, List.mem_filter]
          simp [hxw]
        simp [hiff]
      show w :: (subTreeCollect rest (listDel ws w)).1 = _
      rw [ih (listDel_nodup hws w) hf.2, heq]
    · rw [subTreeCollect_cons_not_mem hw, List.filter_cons]
      have hfalse : (decide (w ∈ ws)) = false := by simp [hw]
      simp only [hfalse, Bool.false_eq_true, if_false]
      exact ih hws hf.2

theorem subTreeCollect_snd {fetch : List PyStr} :
    ∀ {ws : List PyStr}, ws.Nodup →
      (subTreeCollect fetch ws).2 =
        ws.filter (fun x => decide (x ∉ fetch)) := by
  induction fetch with
  | nil =>
    intro ws _
    symm
    apply List.filter_eq_self.mpr
    intro a _
    simp
  | cons w rest ih =>
    intro ws hws
    by_cases hw : w ∈ ws
    · rw [subTreeCollect_cons_mem hw]
      show (subTreeCollect rest (listDel ws w)).2 = _
      rw [ih (listDel_nodup hws w), listDel_eq_filter hws w, List.filter_filter]
      apply List.filter_congr
      intro x _
      by_cases h1 : x = w <;> by_cases h2 : x ∈ rest <;> simp [h1, h2]
    · rw [subTreeCollect_cons_not_mem hw, ih hws]
      apply List.filter_congr
      intro x hx
      have hxw : x ≠ w := fun he => hw (he ▸ hx)
      simp [hxw]

theorem subTreeCollect_perm {fetch : List PyStr} :
    ∀ {ws : List PyStr}, ws.Nodup →
      ((subTreeCollect fetch ws).1 ++ (subTreeCollect fetch ws).2).Perm ws ∧
        (subTreeCollect fetch ws).2.Nodup := by
  induction fetch with
  | nil => intro ws h; exact ⟨List.Perm.refl ws, h⟩
  | cons w rest ih =>
    intro ws hws
    by_cases hw : w ∈ ws
    · rw [subTreeCollect_cons_mem hw]
      obtain ⟨hp, hn⟩ := ih (listDel_nodup hws w)
      exact ⟨(hp.cons w).trans (listDel_perm hw), hn⟩
    · rw [subTreeCollect_cons_not_mem hw]
      exact ih hws

theorem nodeOrderNatural_and_eq {l r : SNode} {ws ln lr : List PyStr}
    (hle : nodeOrderNatural l ws = .ok (ln, lr)) :
    nodeOrderNatural (.andNode l r) ws =
      if lr.length = 0 then .ok (ln, lr)
      else
        match nodeOrderNatural r lr with
        | .error e => .error e
        | .ok (rightret, ws2) => .ok (ln ++ rightret, ws2) := by
  simp only [nodeOrderNatural]
  rw [hle]

theorem nodeOrderNatural_spec :
    ∀ (t : SNode) {ws : List PyStr}, inBracket t = true → ws.Nodup →
      ∃ nat rem, nodeOrderNatural t ws = .ok (nat, rem) ∧
        (nat ++ rem).Perm ws ∧ rem.Nodup := by
  intro t
  induction t with
  | andNode l r ihl ihr =>
    intro ws hb hws
    rw [inBracket, Bool.and_eq_true] at hb
    obtain ⟨ln, lr, hle, hlp, hln⟩ := ihl hb.1 hws
    rw [nodeOrderNatural_and_eq hle]
    by_cases hz : lr.length = 0
    · rw [if_pos hz]
      exact ⟨ln, lr, rfl, hlp, hln⟩
    · rw [if_neg hz]
      obtain ⟨rn, rr, hre, hrp, hrn⟩ := ihr hb.2 hln
      rw [hre]
      refine ⟨ln ++ rn, rr, rfl, ?_, hrn⟩
      have hassoc : ((ln ++ rn) ++ rr).Perm (ln ++ (rn ++ rr)) := by
        rw [List.append_assoc]
      exact hassoc.trans ((hrp.append_left ln).trans hlp)
  | allPages =>
    intro ws _ hws
    exact ⟨[], ws, rfl, by simp, hws⟩
  | subTreePages rword lv wl =>
    intro ws hb hws
    cases wl with
    | none => simp [inBracket] at hb
    | some wlist =>
      obtain ⟨hp, hn⟩ := @subTreeCollect_perm wlist ws hws
      exact ⟨(subTreeCollect wlist ws).1, (subTreeCollect wlist ws).2, rfl, hp, hn⟩
  | regexText p f =>
    intro ws _ hws
    exact ⟨[], ws, rfl, by simp, hws⟩
  | simpleStr s =>
    intro ws _ hws
    exact ⟨[], ws, rfl, by simp, hws⟩

/-- C10: on a duplicate-free word list and a tree inside a session bracket,
`SearchReplaceOperation.orderNatural` succeeds and returns a permutation of
the input: every node removes from the working set exactly the words it
returns, so the node-ordered words plus the sorted remainder contain each
input word exactly once. -/
theorem c10_orderNatural_perm (op : SearchReplaceOperation) (t : SNode)
    (words : List PyStr) (h1 : op.searchOpTree = some t)
    (h2 : inBracket t = true) (h3 : words.Nodup) :
    ∃ res, opOrderNatural op words = .ok res ∧ res.Perm words := by
  have htree : getOpTree op = t := by
    simp [getOpTree, h1]
  have hd : dictFromList words = words := dictFromList_eq h3
  obtain ⟨nat, rem, he, hp, hn⟩ :=
    @nodeOrderNatural_spec t (dictFromList words) h2 (by rw [hd]; exact h3)
  refine ⟨nat ++ pySort rem, ?_, ?_⟩
  · unfold opOrderNatural
    rw [htree, he]
  · have hps : (nat ++ pySort rem).Perm (nat ++ rem) :=
      (List.perm_insertionSort _ rem).append_left nat
    have hpw : (nat ++ rem).Perm words := by
      rw [hd] at hp
      exact hp
    exact hps.trans hpw

/-- A tree of in-scope node kinds inside a session bracket, with the fetched
word list "c", "a", used in the C10 witness. -/
def c10tree : SNode :=
  .andNode (.subTreePages none none (some [[99], [97]])) .allPages

/-- An operation whose cached tree is `c10tree`, used in the C10 witness. -/
def c10op : SearchReplaceOperation :=
  { searchOpTree := some c10tree }

theorem c10_orderNatural_perm_witness :
    ([[97], [98], [99]] : List PyStr).Nodup ∧
    (∃ res, opOrderNatural c10op [[97], [98], [99]] = .ok res ∧
      res.Perm [[97], [98], [99]]) :=
  ⟨by decide,
   c10_orderNatural_perm c10op c10tree [[97], [98], [99]] rfl rfl (by decide)⟩

/-- C9 (amended): with ordering "no" the word list is returned unchanged;
with ordering "ascending" it is sorted lexicographically; with ordering
"natural", a duplicate-free word list and a subtree node inside a session
bracket with a duplicate-free fetched list, the result is the input words
that occur in the fetched list, in fetch order, followed by the remaining
input words sorted lexicographically. -/
theorem c9_applyOrdering_amended (op : SearchReplaceOperation)
    (words fetch : List PyStr) (root : Option PyStr) (lvl : Option Int) :
    (op.ordering = strNo → applyOrdering op words = .ok words) ∧
    (op.ordering = strAscending → applyOrdering op words = .ok (pySort words)) ∧
    (op.ordering = strNatural →
      op.searchOpTree = some (.subTreePages root lvl (some fetch)) →
      words.Nodup → fetch.Nodup →
      applyOrdering op words =
        .ok (fetch.filter (fun w => decide (w ∈ words)) ++
          pySort (words.filter (fun x => decide (x ∉ fetch))))) := by
  refine ⟨?_, ?_, ?_⟩
  · intro h
    rw [applyOrdering, if_pos h]
  · intro h
    have hne : ¬ op.ordering = strNo := by rw [h]; decide
    rw [applyOrdering, if_neg hne, if_pos h]
  · intro h ht hw hf
    have h1 : ¬ op.ordering = strNo := by rw [h]; decide
    have h2 : ¬ op.ordering = strAscending := by rw [h]; decide
    rw [applyOrdering, if_neg h1, if_neg h2, if_pos h]
    have htree : getOpTree op = .subTreePages root lvl (some fetch) := by
      simp [getOpTree, ht]
    have hpair : subTreeCollect fetch words =
        (fetch.filter (fun w => decide (w ∈ words)),
         words.filter (fun x => decide (x ∉ fetch))) :=
      Prod.ext (subTreeCollect_fst hw hf) (subTreeCollect_snd hw)
    have hnode : nodeOrderNatural (.subTreePages root lvl (some fetch))
        (dictFromList words) =
        .ok (fetch.filter (fun w => decide (w ∈ words)),
          words.filter (fun x => decide (x ∉ fetch))) := by
      have hred : nodeOrderNatural (.subTreePages root lvl (some fetch))
          (dictFromList words) =
          .ok (subTreeCollect fetch (dictFromList words)) := rfl
      rw [hred, dictFromList_eq hw, hpair]
    unfold opOrderNatural
    rw [htree, hnode]

/-- The natural-ordering operation over an empty fetched subtree list, used
as counterexample input for C9. -/
def c9dupOp : SearchReplaceOperation :=
  { ordering := strNatural,
    searchOpTree := some (.subTreePages none none (some [])) }

/-- C9 counterexample: the claim quantifies over every word list, but on the
input list "a", "a" with an empty fetched list the code returns only one
"a" — the word-set dictionary collapses duplicate words — while the claimed
description (no fetched hits, then the remaining input words sorted) keeps
both occurrences. -/
theorem c9_counterexample :
    applyOrdering c9dupOp [[97], [97]] = .ok [[97]] ∧
    (([] : List PyStr).filter
        (fun w => decide (w ∈ ([[97], [97]] : List PyStr))) ++
      pySort (([[97], [97]] : List PyStr).filter
        (fun x => decide (x ∉ ([] : List PyStr))))) = [[97], [97]] ∧
    ([[97]] : List PyStr) ≠ [[97], [97]] :=
  ⟨rfl, rfl, by decide⟩

/-- The natural-ordering operation over the fetched subtree list "c", "a",
used in the C9 witness (the ordering example of the spec). -/
def c9op : SearchReplaceOperation :=
  { ordering := strNatural,
    searchOpTree := some (.subTreePages none none (some [[99], [97]])) }

theorem c9_applyOrdering_amended_witness :
    ([[97], [98], [99], [100]] : List PyStr).Nodup ∧
    applyOrdering c9op [[97], [98], [99], [100]] =
      .ok (([[99], [97]] : List PyStr).filter
          (fun w => decide (w ∈ ([[97], [98], [99], [100]] : List PyStr))) ++
        pySort (([[97], [98], [99], [100]] : List PyStr).filter
          (fun x => decide (x ∉ ([[99], [97]] : List PyStr))))) :=
  ⟨by decide,
   (c9_applyOrdering_amended c9op [[97], [98], [99], [100]] [[99], [97]]
     none none).2.2 rfl rfl (by decide) (by decide)⟩

/-- Modelled from the spec (section 6): the missing `StringOps` module
writes fixed-width integers as 4-byte unsigned big-endian values
(`pack(">I", n)`). -/
def enc4 (n : Nat) : List Nat :=
  [n / 16777216 % 256, n / 65536 % 256, n / 256 % 256, n % 256]

/-- Modelled from the spec: read back a 4-byte unsigned big-endian integer
from the head of the stream. -/
def dec4 : List Nat → Option (Nat × List Nat)
  | b0 :: b1 :: b2 :: b3 :: rest =>
    some (b0 * 16777216 + b1 * 65536 + b2 * 256 + b3, rest)
  | _ => none

theorem dec4_enc4 {n : Nat} (h : n < 4294967296) (rest : List Nat) :
    dec4 (enc4 n ++ rest) = some (n, rest) := by
  simp only [enc4, List.cons_append, List.nil_append, dec4]
  have hv : n / 16777216 % 256 * 16777216 + n / 65536 % 256 * 65536 +
      n / 256 % 256 * 256 + n % 256 = n := by omega
  rw [hv]

/-- Modelled from the spec: the standard UTF-8 encoding of one code point
(1 to 4 bytes; Python 2 unicode code points are below 0x110000, and its
UTF-8 codec also encodes the surrogate range, matching the plain 3-byte
rule used here). -/
def utf8EncChar (c : Nat) : List Nat :=
  if c < 128 then [c]
  else if c < 2048 then [192 + c / 64, 128 + c % 64]
  else if c < 65536 then [224 + c / 4096, 128 + c / 64 % 64, 128 + c % 64]
  else [240 + c / 262144, 128 + c / 4096 % 64, 128 + c / 64 % 64, 128 + c % 64]

/-- Modelled from the spec: `utf8Enc` of the missing `StringOps` module,
the UTF-8 byte sequence of a unicode string. -/
def utf8Enc : PyStr → List Nat
  | [] => []
  | c :: s => utf8EncChar c ++ utf8Enc s

/-- Modelled from the spec: decode one UTF-8 sequence from the head of a
byte list, returning the code point and the remaining bytes. -/
def utf8DecStep : List Nat → Option (Nat × List Nat)
  | [] => none
  | b0 :: rest =>
    if b0 < 128 then some (b0, rest)
    else if b0 < 192 then none
    else if b0 < 224 then
      match rest with
      | b1 :: r =>
        if 128 ≤ b1 ∧ b1 < 192 then some ((b0 - 192) * 64 + (b1 - 128), r)
        else none
      | [] => none
    else if b0 < 240 then
      match rest with
      | b1 :: b2 :: r =>
        if (128 ≤ b1 ∧ b1 < 192) ∧ (128 ≤ b2 ∧ b2 < 192) then
          some ((b0 - 224) * 4096 + (b1 - 128) * 64 + (b2 - 128), r)
        else none
      | _ => none
    else if b0 < 248 then
      match rest with
      | b1 :: b2 :: b3 :: r =>
        if (128 ≤ b1 ∧ b1 < 192) ∧ (128 ≤ b2 ∧ b2 < 192) ∧ (128 ≤ b3 ∧ b3 < 192) then
          some ((b0 - 240) * 262144 + (b1 - 128) * 4096 + (b2 - 128) * 64 +
            (b3 - 128), r)
        else none
      | _ => none
    else none

/-- Fuel-driven UTF-8 decoding loop; the fuel only bounds the recursion and
`utf8Dec` always supplies enough of it. -/
def utf8DecAux : Nat → List Nat → Option PyStr
  | _, [] => some []
  | 0, _ :: _ => none
  | fuel + 1, b0 :: rest =>
    match utf8DecStep (b0 :: rest) with
    | none => none
    | some (c, r) => (utf8DecAux fuel r).map (fun s => c :: s)

/-- Modelled from the spec: `utf8Dec` of the missing `StringOps` module,
decoding a whole UTF-8 byte sequence back into a unicode string. -/
def utf8Dec (bs : List Nat) : Option PyStr :=
  utf8DecAux bs.length bs

theorem utf8DecStep_encChar {c : Nat} (h : c < 1114112) (bs : List Nat) :
    utf8DecStep (utf8EncChar c ++ bs) = some (c, bs) := by
  by_cases h1 : c < 128
  · rw [utf8EncChar, if_pos h1]
    simp only [List.cons_append, List.nil_append, utf8DecStep, if_pos h1]
  · by_cases h2 : c < 2048
    · rw [utf8EncChar, if_neg h1, if_pos h2]
      simp only [List.cons_append, List.nil_append, utf8DecStep]
      rw [if_neg (by omega), if_neg (by omega), if_pos (by omega),
        if_pos (by omega : 128 ≤ 128 + c % 64 ∧ 128 + c % 64 < 192)]
      have hv : (192 + c / 64 - 192) * 64 + (128 + c % 64 - 128) = c := by omega
      rw [hv]
    · by_cases h3 : c < 65536
      · rw [utf8EncChar, if_neg h1, if_neg h2, if_pos h3]
        simp only [List.cons_append, List.nil_append, utf8DecStep]
        rw [if_neg (by omega), if_neg (by omega), if_neg (by omega),
          if_pos (by omega),
          if_pos (by omega :
            (128 ≤ 128 + c / 64 % 64 ∧ 128 + c / 64 % 64 < 192) ∧
            (128 ≤ 128 + c % 64 ∧ 128 + c % 64 < 192))]
        have hv : (224 + c / 4096 - 224) * 4096 + (128 + c / 64 % 64 - 128) * 64 +
            (128 + c % 64 - 128) = c := by omega
        rw [hv]
      · rw [utf8EncChar, if_neg h1, if_neg h2, if_neg h3]
        simp only [List.cons_append, List.nil_append, utf8DecStep]
        rw [if_neg (by omega), if_neg (by omega), if_neg (by omega),
          if_neg (by omega), if_pos (by omega),
          if_pos (by omega :
            (128 ≤ 128 + c / 4096 % 64 ∧ 128 + c / 4096 % 64 < 192) ∧
            (128 ≤ 128 + c / 64 % 64 ∧ 128 + c / 64 % 64 < 192) ∧
            (128 ≤ 128 + c % 64 ∧ 128 + c % 64 < 192))]
        have hv : (240 + c / 262144 - 240) * 262144 + (128 + c / 4096 % 64 - 128) * 4096 +
            (128 + c / 64 % 64 - 128) * 64 + (128 + c % 64 - 128) = c := by omega
        rw [hv]

theorem utf8EncChar_ne_nil (c : Nat) : utf8EncChar c ≠ [] := by
  rw [utf8EncChar]
  by_cases h1 : c < 128 <;> by_cases h2 : c < 2048 <;> by_cases h3 : c < 65536 <;>
    simp [h1, h2, h3]

theorem utf8DecAux_enc :
    ∀ (s : PyStr) (fuel : Nat), (∀ c ∈ s, c < 1114112) →
      (utf8Enc s).length ≤ fuel → utf8DecAux fuel (utf8Enc s) = some s := by
  intro s
  induction s with
  | nil =>
    intro fuel _ _
    cases fuel <;> rfl
  | cons c cs ih =>
    intro fuel h hlen
    have hc : c < 1114112 := h c (List.mem_cons_self c cs)
    have hcs : ∀ x ∈ cs, x < 1114112 := fun x hx => h x (List.mem_cons_of_mem c hx)
    have hpos : utf8EncChar c ≠ [] := utf8EncChar_ne_nil c
    obtain ⟨b, rest, hbr⟩ : ∃ b rest, utf8EncChar c ++ utf8Enc cs = b :: rest := by
      cases hE : utf8EncChar c with
      | nil => exact absurd hE hpos
      | cons b bs => exact ⟨b, bs ++ utf8Enc cs, by simp⟩
    have hE1 : 1 ≤ (utf8EncChar c).length := by
      cases hE : utf8EncChar c with
      | nil => exact absurd hE hpos
      | cons b bs => simp
    have hlen2 : (utf8EncChar c ++ utf8Enc cs).length =
        (utf8EncChar c).length + (utf8Enc cs).length := List.length_append _ _
    cases fuel with
    | zero =>
      exfalso
      have hle : (utf8Enc (c :: cs)).length ≤ 0 := hlen
      rw [show utf8Enc (c :: cs) = utf8EncChar c ++ utf8Enc cs from rfl, hlen2] at hle
      omega
    | succ k =>
      show utf8DecAux (k + 1) (utf8EncChar c ++ utf8Enc cs) = some (c :: cs)
      rw [hbr]
      simp only [utf8DecAux]
      rw [← hbr, utf8DecStep_encChar hc]
      show (utf8DecAux k (utf8Enc cs)).map (fun s => c :: s) = some (c :: cs)
      have hk : (utf8Enc cs).length ≤ k := by
        have hle : (utf8Enc (c :: cs)).length ≤ k + 1 := hlen
        rw [show utf8Enc (c :: cs) = utf8EncChar c ++ utf8Enc cs from rfl, hlen2] at hle
        omega
      rw [ih k hcs hk]
      rfl

theorem utf8Dec_enc {s : PyStr} (h : ∀ c ∈ s, c < 1114112) :
    utf8Dec (utf8Enc s) = some s :=
  utf8DecAux_enc s (utf8Enc s).length h (Nat.le_refl _)

/-- Modelled from the spec: `strToBin` of the missing `StringOps` module, a
length-prefixed byte block. -/
def strToBin (bs : List Nat) : List Nat := enc4 bs.length ++ bs

/-- Modelled from the spec: `binToStr` of the missing `StringOps` module,
reading back a length-prefixed byte block. -/
def binToStr (l : List Nat) : Option (List Nat × List Nat) :=
  match dec4 l with
  | none => none
  | some (n, r) => if n ≤ r.length then some (r.take n, r.drop n) else none

theorem binToStr_strToBin {bs : List Nat} (h : bs.length < 4294967296)
    (rest : List Nat) : binToStr (strToBin bs ++ rest) = some (bs, rest) := by
  rw [strToBin, List.append_assoc, binToStr, dec4_enc4 h]
  have hle : bs.length ≤ (bs ++ rest).length := by simp
  show (if bs.length ≤ (bs ++ rest).length then
      some ((bs ++ rest).take bs.length, (bs ++ rest).drop bs.length)
    else none) = some (bs, rest)
  rw [if_pos hle, List.take_left, List.drop_left]

/-- Modelled from the spec: `boolToChar` of the missing `StringOps` module,
one byte per boolean. -/
def boolToChar (b : Bool) : Nat := if b then 1 else 0

/-- Modelled from the spec: `charToBool` of the missing `StringOps`
module. -/
def charToBool (n : Nat) : Bool := n != 0

theorem charToBool_boolToChar (b : Bool) : charToBool (boolToChar b) = b := by
  cases b <;> rfl

/-- Method `SearchReplaceOperation.serializeBin` in write mode: version tag 0, the
two length-prefixed UTF-8 strings, the five boolean bytes, then the
length-prefixed wildcard string. -/
def serializeBinW (op : SearchReplaceOperation) : List Nat :=
  enc4 0 ++ (strToBin (utf8Enc op.searchStr) ++ (strToBin (utf8Enc op.replaceStr) ++
    (boolToChar op.replaceOp :: boolToChar op.wholeWord :: boolToChar op.caseSensitive ::
     boolToChar op.cycleToStart :: boolToChar op.booleanOp :: strToBin op.wildCard)))

/-- Method `SearchReplaceOperation.serializeBin` in read mode: the same field
sequence; a non-zero version tag returns early with all fields untouched
(the silent TODO of the source); malformed data is a decode failure
(`none`, an exception in Python). -/
def serializeBinR (op : SearchReplaceOperation) (data : List Nat) :
    Option (SearchReplaceOperation × List Nat) :=
  match dec4 data with
  | none => none
  | some (version, r0) =>
    if version ≠ 0 then some (op, r0)
    else
      match binToStr r0 with
      | none => none
      | some (sBytes, r1) =>
        match utf8Dec sBytes with
        | none => none
        | some sStr =>
          match binToStr r1 with
          | none => none
          | some (rBytes, r2) =>
            match utf8Dec rBytes with
            | none => none
            | some rStr =>
              match r2 with
              | bR :: bW :: bC :: bCy :: bB :: r3 =>
                match binToStr r3 with
                | none => none
                | some (wc, r4) =>
                  some ({ op with
                            searchStr := sStr, replaceStr := rStr,
                            replaceOp := charToBool bR, wholeWord := charToBool bW,
                            caseSensitive := charToBool bC,
                            cycleToStart := charToBool bCy,
                            booleanOp := charToBool bB, wildCard := wc }, r4)
              | _ => none

/-- Method `SearchReplaceOperation.getPackedSettings`: serialize the settings into
a fresh write stream and return its bytes. -/
def getPackedSettings (op : SearchReplaceOperation) : List Nat :=
  serializeBinW op

/-- Method `SearchReplaceOperation.setPackedSettings`: read the settings from the
byte sequence, then clear the cached tree. -/
def setPackedSettings (op : SearchReplaceOperation) (data : List Nat) :
    Option SearchReplaceOperation :=
  match serializeBinR op data with
  | none => none
  | some (o, _) => some { o with searchOpTree := none }

theorem serializeBinR_roundTrip (op op0 : SearchReplaceOperation)
    (hv1 : ∀ c ∈ op.searchStr, c < 1114112)
    (hv2 : ∀ c ∈ op.replaceStr, c < 1114112)
    (hl1 : (utf8Enc op.searchStr).length < 4294967296)
    (hl2 : (utf8Enc op.replaceStr).length < 4294967296)
    (hl3 : op.wildCard.length < 4294967296) :
    serializeBinR op0 (serializeBinW op) =
      some ({ op0 with
                searchStr := op.searchStr, replaceStr := op.replaceStr,
                replaceOp := op.replaceOp, wholeWord := op.wholeWord,
                caseSensitive := op.caseSensitive, cycleToStart := op.cycleToStart,
                booleanOp := op.booleanOp, wildCard := op.wildCard }, []) := by
  rw [serializeBinW, serializeBinR, dec4_enc4 (by omega)]
  dsimp only []
  rw [if_neg (by omega)]
  rw [binToStr_strToBin hl1]
  dsimp only []
  rw [utf8Dec_enc hv1]
  dsimp only []
  rw [binToStr_strToBin hl2]
  dsimp only []
  rw [utf8Dec_enc hv2]
  dsimp only []
  rw [show strToBin op.wildCard = strToBin op.wildCard ++ [] by
    rw [List.append_nil]]
  rw [binToStr_strToBin hl3]
  dsimp only []
  simp only [charToBool_boolToChar]

/-- C5: decoding the packed settings restores every serialized settings
field — searchStr, replaceStr, replaceOp, wholeWord, caseSensitive,
cycleToStart, booleanOp, wildCard — for every operation (each boolean field
independently arbitrary), and the packed bytes are exactly those fields in
that order after the 4-byte version tag of value 0. -/
theorem c5_packedSettings_roundTrip (op op0 : SearchReplaceOperation)
    (hv1 : ∀ c ∈ op.searchStr, c < 1114112)
    (hv2 : ∀ c ∈ op.replaceStr, c < 1114112)
    (hl1 : (utf8Enc op.searchStr).length < 4294967296)
    (hl2 : (utf8Enc op.replaceStr).length < 4294967296)
    (hl3 : op.wildCard.length < 4294967296) :
    setPackedSettings op0 (getPackedSettings op) =
      some { op0 with
               searchStr := op.searchStr, replaceStr := op.replaceStr,
               replaceOp := op.replaceOp, wholeWord := op.wholeWord,
               caseSensitive := op.caseSensitive, cycleToStart := op.cycleToStart,
               booleanOp := op.booleanOp, wildCard := op.wildCard,
               searchOpTree := none } ∧
    getPackedSettings op =
      [0, 0, 0, 0] ++ strToBin (utf8Enc op.searchStr) ++
        strToBin (utf8Enc op.replaceStr) ++
        [boolToChar op.replaceOp, boolToChar op.wholeWord,
         boolToChar op.caseSensitive, boolToChar op.cycleToStart,
         boolToChar op.booleanOp] ++ strToBin op.wildCard := by
  constructor
  · rw [setPackedSettings, getPackedSettings,
      serializeBinR_roundTrip op op0 hv1 hv2 hl1 hl2 hl3]
  · rw [getPackedSettings, serializeBinW]
    simp [enc4, List.append_assoc]

/-- A concrete operation with every serialized boolean set and a multi-byte
character in the search string, used in the C5 witness. -/
def c5op : SearchReplaceOperation :=
  { searchStr := [65, 8364], replaceStr := [98], replaceOp := true,
    wholeWord := true, caseSensitive := true, cycleToStart := true,
    booleanOp := true, wildCard := strNo }

/-- A freshly constructed operation with default settings, used as the
decode target in the C5 witness. -/
def c5op0 : SearchReplaceOperation := {}

theorem c5_packedSettings_roundTrip_witness :
    (∀ c ∈ c5op.searchStr, c < 1114112) ∧
    setPackedSettings c5op0 (getPackedSettings c5op) =
      some { c5op0 with
               searchStr := c5op.searchStr, replaceStr := c5op.replaceStr,
               replaceOp := c5op.replaceOp, wholeWord := c5op.wholeWord,
               caseSensitive := c5op.caseSensitive,
               cycleToStart := c5op.cycleToStart,
               booleanOp := c5op.booleanOp, wildCard := c5op.wildCard,
               searchOpTree := none } :=
  ⟨by decide,
   (c5_packedSettings_roundTrip c5op c5op0 (by decide) (by decide) (by decide)
     (by decide) (by decide)).1⟩

end SAR
